import Mathlib

/-!
Verification development for the news-ingestion pipeline: feed acquisition
(`rssReader.js`), per-source table management and article upsert
(`storeFeedSource`), scraper dispatch and content enrichment
(`articlesScrape.js`, `scrapers/trueNorth.js`, `scrapers/cbc.js`), and the
best-effort markdown normalization (`utils/ollama.js`).

The JavaScript source is embedded shallowly: strings are Lean `String`s
(manipulated on their underlying char lists so that everything evaluates in
the kernel), nullable values are `Option`s, the relational store is an
explicit state record, and the `BEGIN`/`COMMIT`/`ROLLBACK` bracket of each
batch is rollback-on-error semantics.  Network calls and the inference
endpoint are oracles supplied as function-valued environment fields.
-/

/-! ## JavaScript string primitives used by the source -/

/-- Truthiness of a nullable JS string: `undefined`/`null` and `""` are falsy. -/
def truthyStr : Option String → Bool
  | none => false
  | some s => !(s = "")

/-- `a || b` on nullable JS strings: returns `a` when truthy, else `b`. -/
def jsOrOpt (a b : Option String) : Option String :=
  if truthyStr a then a else b

/-- `a || b` where the fallback is a plain string. -/
def jsOrStr (a : Option String) (b : String) : String :=
  match jsOrOpt a (some b) with
  | some s => s
  | none => b

/-- `hay.indexOf(needle, start)` on char lists, position counted from `i`. -/
def idxFromAux (needle : List Char) : List Char → Nat → Option Nat
  | [], i => if needle.isEmpty then some i else none
  | c :: rest, i =>
    if needle.isPrefixOf (c :: rest) then some i
    else idxFromAux needle rest (i + 1)

/-- `hay.indexOf(needle, start)`; `none` models the JS result `-1`. -/
def strIndexOfFrom (hay needle : String) (start : Nat) : Option Nat :=
  (idxFromAux needle.data (hay.data.drop start) 0).map (· + start)

/-- Clamp a JS substring index into `[0, s.length]`. -/
def jsClamp (s : String) (x : Int) : Nat :=
  (max 0 (min x (Int.ofNat s.data.length))).toNat

/-- JS `String.prototype.substring(a, b)`: clamps both indices into
`[0, length]` and swaps them when `a > b`. -/
def jsSubstring (s : String) (a b : Int) : String :=
  String.mk ((s.data.drop (min (jsClamp s a) (jsClamp s b))).take
    (max (jsClamp s a) (jsClamp s b) - min (jsClamp s a) (jsClamp s b)))

/-- Substring containment, `hay.includes(needle)` / `indexOf(...) !== -1`. -/
def containsSubstring (hay needle : String) : Bool :=
  (idxFromAux needle.data hay.data 0).isSome

/-- Fueled worker for `removeSub`; the fuel is an upper bound on the input
length, so the `0, l` branch is unreachable at the initial fuel. -/
def removeSubFuel (pat : List Char) : Nat → List Char → List Char
  | _, [] => []
  | 0, l => l
  | f + 1, c :: cs =>
    if !pat.isEmpty && pat.isPrefixOf (c :: cs) then removeSubFuel pat f (cs.drop (pat.length - 1))
    else c :: removeSubFuel pat f cs

/-- One left-to-right global-replace pass deleting every occurrence of `pat`,
the semantics of `str.replace(/pat/g, '')` for a literal pattern. -/
def removeSub (pat l : List Char) : List Char :=
  removeSubFuel pat l.length l

/-- ASCII lower-casing of one character, as `toLowerCase` acts on the
characters this pipeline meets. -/
def jsToLower (c : Char) : Char :=
  if 'A' ≤ c && c ≤ 'Z' then Char.ofNat (c.toNat + 32) else c

/-- Whitespace trim on a char list (`String.prototype.trim`). -/
def jsTrimList (l : List Char) : List Char :=
  ((l.dropWhile Char.isWhitespace).reverse.dropWhile Char.isWhitespace).reverse

/-! ## Title cleaning and table-name derivation (`rssReader.js`) -/

/-- Fueled worker for `stripCdata`; fuel bounds the input length. -/
def stripCdataFuel : Nat → List Char → List Char
  | _, [] => []
  | 0, l => l
  | f + 1, c :: cs =>
    if ("<![CDATA[".data).isPrefixOf (c :: cs) then stripCdataFuel f (cs.drop 8)
    else if ("]]>".data).isPrefixOf (c :: cs) then stripCdataFuel f (cs.drop 2)
    else c :: stripCdataFuel f cs

/-- One left-to-right pass removing every occurrence of the CDATA wrapper
tokens, as the regex `/<!\[CDATA\[|\]\]>/g` does. -/
def stripCdata (l : List Char) : List Char :=
  stripCdataFuel l.length l

/-- `RSSReader.cleanTitle`: falsy titles become `"Untitled"`; otherwise CDATA
wrappers, the HTML-encoded pipe and the pipe character are removed and the
result is whitespace-trimmed. -/
def cleanTitle (title : Option String) : String :=
  match title with
  | none => "Untitled"
  | some s =>
    if s = "" then "Untitled"
    else String.mk (jsTrimList (removeSub "|".data (removeSub "&#124;".data (stripCdata s.data))))

/-- Collapse every run of underscores to a single underscore
(`replace(/_+/g, '_')`); each run survives as its last character. -/
def collapseUnderscores : List Char → List Char
  | [] => []
  | [c] => [c]
  | c1 :: c2 :: rest =>
    if c1 = '_' && c2 = '_' then collapseUnderscores (c2 :: rest)
    else c1 :: collapseUnderscores (c2 :: rest)

/-- `replace(/^_|_$/g, '')` removes at most one leading underscore. -/
def dropOneLeadingUnderscore : List Char → List Char
  | [] => []
  | c :: rest => if c = '_' then rest else c :: rest

/-- `replace(/^_|_$/g, '')`: one leading and one trailing underscore go. -/
def trimEdgeUnderscores (l : List Char) : List Char :=
  (dropOneLeadingUnderscore (dropOneLeadingUnderscore l).reverse).reverse

/-- `RSSReader.sanitizeTableName`: lower-case, drop pipes and encoded pipes,
turn every other character outside `[a-z0-9]` into `_`, collapse underscore
runs, strip one boundary underscore at each end, and trim whitespace. -/
def sanitizeTableName (s : String) : String :=
  String.mk (jsTrimList (trimEdgeUnderscores (collapseUnderscores
    ((removeSub "&#124;".data (removeSub "|".data (s.data.map jsToLower))).map
      (fun c => if ('a' ≤ c && c ≤ 'z') || ('0' ≤ c && c ≤ '9') then c else '_')))))

/-- The table identifier `pullAndParseFeed` derives from a raw channel title:
the cleaned title sanitized and prefixed with the fixed namespace token. -/
def deriveTableIdentifier (channelTitle : String) : String :=
  "articles_" ++ sanitizeTableName (cleanTitle (some channelTitle))


/-! ## Feed data model (`pullAndParseFeed`) -/

/-- A JS `Date` value at the storage boundary: either a parseable date string
or the Invalid Date produced by `new Date(undefined)`. -/
inductive JsDate where
  | valid (repr : String)
  | invalid
deriving DecidableEq, Repr

/-- Boundary model of `new Date(x)`: an absent argument yields Invalid Date, a
present (nonempty, well-formed) date string parses. -/
def jsNewDate : Option String → JsDate
  | none => .invalid
  | some s => .valid s

/-- One `<item>` of a parsed feed, the fields `rssReader.js` reads.  `dcDate`
is absent because the parser's custom fields never populate it. -/
structure FeedItem where
  link : Option String
  title : Option String
  pubDate : Option String
  categories : Option (List String)
  contentEncoded : Option String
  content : Option String
  description : Option String
deriving DecidableEq, Repr

/-- A parsed feed document: channel title and items. -/
structure Feed where
  title : Option String
  items : List FeedItem
deriving DecidableEq, Repr

/-- The per-article record `pullAndParseFeed` builds from an item. -/
structure ParsedArticle where
  url : Option String
  title : String
  date_added : JsDate
  categories : Option (List String)
  contentEncoded : Option String
  content : Option String
deriving DecidableEq, Repr

/-- The source record `pullAndParseFeed` builds for the feed. -/
structure SourceRec where
  url : String
  channel_name : String
  articles_table : String
deriving DecidableEq, Repr

/-- Result of `pullAndParseFeed`: the source plus its articles. -/
structure FeedData where
  source : SourceRec
  articles : List ParsedArticle
deriving DecidableEq, Repr

/-- The per-item transform inside `pullAndParseFeed`:
`date_added = new Date(item.pubDate || item.dcDate)` with `dcDate` always
undefined, `content = item.content || item.description`. -/
def parseItem (it : FeedItem) : ParsedArticle where
  url := it.link
  title := cleanTitle it.title
  date_added := jsNewDate (jsOrOpt it.pubDate none)
  categories := it.categories
  contentEncoded := it.contentEncoded
  content := jsOrOpt it.content it.description

/-- `RSSReader.pullAndParseFeed` after the network fetch and XML parse: clean
the channel title, derive the articles-table name, map the items. -/
def pullAndParseFeed (feedUrl : String) (feed : Feed) : FeedData where
  source :=
    { url := feedUrl
      channel_name := cleanTitle (some (jsOrStr feed.title "Unknown Channel"))
      articles_table :=
        "articles_" ++ sanitizeTableName (cleanTitle (some (jsOrStr feed.title "Unknown Channel"))) }
  articles := feed.items.map parseItem

/-! ## Relational store model -/

/-- A row of a per-source articles table
(`id, title, url, content, summary, date_added, scrape_check, topic_id`). -/
structure ArticleRow where
  id : Nat
  url : String
  title : String
  date_added : String
  content : Option String
  summary : Option String
  scrape_check : Option Int
  topic_id : Option Nat
deriving DecidableEq, Repr

/-- A per-source articles table: rows plus the identity-column counter. -/
structure ArticleTable where
  rows : List ArticleRow
  nextId : Nat
deriving DecidableEq, Repr

/-- A row of the `sources` table. -/
structure SourceRow where
  id : Nat
  url : String
  channel_name : String
  articles_table : String
deriving DecidableEq, Repr

/-- The visible database state: the `sources` table and the per-source
articles tables, addressed by name. -/
structure DbState where
  sources : List SourceRow
  sourcesNextId : Nat
  tables : List (String × ArticleTable)
deriving DecidableEq, Repr

/-- Storage-boundary failures surfaced by the driver or the server. -/
inductive StorageError where
  | notNullViolation
  | uniqueViolation
  | invalidDateValue
deriving DecidableEq, Repr

/-- Find a table by name in a name-table association list. -/
def findTbl (tbls : List (String × ArticleTable)) (name : String) : Option ArticleTable :=
  (tbls.find? (fun p => p.1 = name)).map (·.2)

/-- Rewrite the table stored under `name` in an association list. -/
def setTbl (tbls : List (String × ArticleTable)) (name : String) (t : ArticleTable) :
    List (String × ArticleTable) :=
  tbls.map (fun p => if p.1 = name then (p.1, t) else p)

/-- Look a table up by name. -/
def lookupTable (s : DbState) (name : String) : Option ArticleTable :=
  findTbl s.tables name

/-- Replace the table stored under `name` (a no-op when absent). -/
def setTable (s : DbState) (name : String) (t : ArticleTable) : DbState :=
  { s with tables := setTbl s.tables name t }

/-- `CREATE TABLE IF NOT EXISTS` for a per-source articles table. -/
def createArticlesTableIfNotExists (s : DbState) (name : String) : DbState :=
  match lookupTable s name with
  | some _ => s
  | none => { s with tables := s.tables ++ [(name, ⟨[], 1⟩)] }

/-- `INSERT INTO sources ... ON CONFLICT (url) DO UPDATE SET channel_name,
articles_table`: a row with the same endpoint URL is overwritten; a collision
of the new values with a different row's unique `channel_name` or
`articles_table` raises a unique violation. -/
def upsertSource (s : DbState) (src : SourceRec) : Except StorageError DbState :=
  match s.sources.find? (fun r => r.url = src.url) with
  | some _ =>
    if s.sources.any (fun r =>
        r.url ≠ src.url && (r.channel_name = src.channel_name || r.articles_table = src.articles_table))
    then .error .uniqueViolation
    else .ok { s with sources := s.sources.map (fun r =>
      if r.url = src.url then { r with channel_name := src.channel_name, articles_table := src.articles_table } else r) }
  | none =>
    if s.sources.any (fun r =>
        r.channel_name = src.channel_name || r.articles_table = src.articles_table)
    then .error .uniqueViolation
    else .ok { s with
      sources := s.sources ++ [⟨s.sourcesNextId, src.url, src.channel_name, src.articles_table⟩]
      sourcesNextId := s.sourcesNextId + 1 }

/-- `ON CONFLICT (url) DO UPDATE SET title, date_added`: rewrite the title and
date of every row carrying the conflicting URL, touching nothing else. -/
def setTitleDate (rows : List ArticleRow) (u ti d : String) : List ArticleRow :=
  rows.map (fun r => if r.url = u then { r with title := ti, date_added := d } else r)

/-- Does some row already carry this URL (the unique-index conflict test)? -/
def hasUrl (rows : List ArticleRow) (u : String) : Bool :=
  rows.any (fun r => r.url = u)

/-- The successful article upsert: update on URL conflict, else insert a fresh
row whose `content`, `summary`, `scrape_check` and `topic_id` start NULL. -/
def stepArticle (t : ArticleTable) (u ti d : String) : ArticleTable :=
  if hasUrl t.rows u then { t with rows := setTitleDate t.rows u ti d }
  else
    { rows := t.rows ++ [⟨t.nextId, u, ti, d, none, none, none, none⟩]
      nextId := t.nextId + 1 }

/-- One `INSERT INTO <table> (url, title, date_added) VALUES ... ON CONFLICT
(url) DO UPDATE SET title, date_added`.  A missing link violates the
`url text not null` column; an Invalid Date cannot be serialized into the
`date_added date not null` column and the statement fails. -/
def insertOrUpdateArticle (t : ArticleTable) (a : ParsedArticle) : Except StorageError ArticleTable :=
  match a.url with
  | none => .error .notNullViolation
  | some u =>
    match a.date_added with
    | .invalid => .error .invalidDateValue
    | .valid d => .ok (stepArticle t u a.title d)

/-- The article loop of `storeFeedSource`: statements run in order, the first
failure aborts the batch. -/
def upsertArticles (t : ArticleTable) (arts : List ParsedArticle) : Except StorageError ArticleTable :=
  arts.foldlM insertOrUpdateArticle t

/-- The body of `storeFeedSource` between `BEGIN` and `COMMIT`: create the
articles table if needed, upsert the source row, upsert every article. -/
def storeFeedSourceTx (s : DbState) (fd : FeedData) : Except StorageError DbState :=
  match upsertSource (createArticlesTableIfNotExists s fd.source.articles_table) fd.source with
  | .error e => .error e
  | .ok s2 =>
    match upsertArticles ((lookupTable s2 fd.source.articles_table).getD ⟨[], 1⟩) fd.articles with
    | .error e => .error e
    | .ok t2 => .ok (setTable s2 fd.source.articles_table t2)

/-- `RSSReader.storeFeedSource`: the transaction commits as a whole, or the
`ROLLBACK` handler restores the pre-batch state and reports the error. -/
def storeFeedSource (s : DbState) (fd : FeedData) : DbState × Option StorageError :=
  match storeFeedSourceTx s fd with
  | .ok s2 => (s2, none)
  | .error e => (s, some e)

/-! ## Scrapers (`scrapers/trueNorth.js`, `scrapers/cbc.js`) -/

/-- The registered extraction strategies. -/
inductive Scraper where
  | trueNorth
  | cbc
deriving DecidableEq, Repr

/-- The registration table `new Map([['tnc.news', trueNorth], ['cbc.ca', cbc]])`,
iterated in insertion order. -/
def scrapers : List (String × Scraper) :=
  [("tnc.news", .trueNorth), ("cbc.ca", .cbc)]

/-- The shape of the second argument `scraper.scrape(url, article)` receives:
a JS object whose fields may each be absent. -/
structure ArticleObj where
  title : String
  categories : Option (List String)
  contentEncoded : Option String
  content : Option String
deriving DecidableEq, Repr

/-- `trueNorthNewsScraper.isVideoContent`: some category equals `"Podcasts"`
or `"Videos"`. -/
def isVideoContent (cats : List String) : Bool :=
  cats.any (fun c => c = "Podcasts" || c = "Videos")

/-- `trueNorthNewsScraper.scrape`: the video sentinel short-circuits before
anything else; otherwise `content:encoded`, then the raw content, is returned;
with neither present the scraper throws.  No network request is made on any
path. -/
def trueNorthScrape (a : ArticleObj) : Except Unit String :=
  if truthyStr (a.categories.map (fun _ => "x")) && isVideoContent (a.categories.getD []) then
    .ok "Video Content"
  else if truthyStr a.contentEncoded then .ok (a.contentEncoded.getD "")
  else if truthyStr a.content then .ok (a.content.getD "")
  else .error ()

/-- `CBCNewsScraper.cleanUrl`: everything before the first `?`. -/
def cleanUrl (url : String) : String :=
  String.mk (url.data.takeWhile (fun c => c ≠ '?'))

/-- The balanced-tag scan both extractors share: from `endPos`, repeatedly
find the next close tag and next open tag, adjusting the depth, until the
depth reaches zero or the scan runs off the end; `none` is the JS `return`
taken when no close tag is found.  The fuel bounds the iteration count; each
step strictly advances `endPos`, so `hay.length + 1` steps always suffice. -/
def scanBalanced (hay openTag closeTag : String) : Nat → Nat → Nat → Option Nat
  | _, 0, endPos => some endPos
  | 0, _, endPos => some endPos
  | fuel + 1, depth + 1, endPos =>
    if hay.data.length ≤ endPos then some endPos
    else
      match strIndexOfFrom hay closeTag endPos with
      | none => none
      | some ct =>
        match strIndexOfFrom hay openTag endPos with
        | none => scanBalanced hay openTag closeTag fuel depth (ct + closeTag.data.length)
        | some ot =>
          if ct < ot then scanBalanced hay openTag closeTag fuel depth (ct + closeTag.data.length)
          else scanBalanced hay openTag closeTag fuel (depth + 2) (ot + openTag.data.length)

/-- The second half of `extractMainContent`: locate
`<div id="detailContent">` inside the main content; when it is absent (with or
without the `story-content` probe, which only logs) the main content itself is
returned. -/
def extractDetailContent (mainContent : String) : Option String :=
  match strIndexOfFrom mainContent "<div id=\"detailContent\"" 0 with
  | none => some mainContent
  | some detailStart =>
    match scanBalanced mainContent "<div" "</div>"
        (mainContent.data.length + 1) 1
        ((match strIndexOfFrom mainContent ">" detailStart with | none => 0 | some i => i + 1) : Nat) with
    | none => some mainContent
    | some divEnd =>
      some (jsSubstring mainContent
        (Int.ofNat (match strIndexOfFrom mainContent ">" detailStart with | none => 0 | some i => i + 1))
        ((divEnd : Int) - 6))


/-- `CBCNewsScraper.extractMainContent`: cut out the balanced `<main>`
element, then the balanced `<div id="detailContent">` inside it when present;
a missing close tag for the div falls back to the whole main content, a
missing `<main>` or its close tag yields `null`. -/
def extractMainContent (html : String) : Option String :=
  match strIndexOfFrom html "<main" 0 with
  | none => none
  | some mainStart =>
    match scanBalanced html "<main" "</main>"
        (html.data.length + 1) 1
        ((match strIndexOfFrom html ">" mainStart with | none => 0 | some i => i + 1) : Nat) with
    | none => none
    | some mainEnd =>
      extractDetailContent (jsSubstring html
        (Int.ofNat (match strIndexOfFrom html ">" mainStart with | none => 0 | some i => i + 1))
        ((mainEnd : Int) - 7))
/-- Outcome of one `fetch` of an article page: transport failure, or a status
plus the body text. -/
inductive HttpResult where
  | netFail
  | response (status : Nat) (body : String)

/-- `response.ok`: the status lies in the 2xx range. -/
def httpOk (status : Nat) : Bool :=
  200 ≤ status && status ≤ 299

/-- `CBCNewsScraper.scrape`: strip query parameters, fetch, reject non-2xx
responses, extract the main content, and throw when nothing was extracted. -/
def cbcScrape (http : String → HttpResult) (url : String) : Except Unit String :=
  match http (cleanUrl url) with
  | .netFail => .error ()
  | .response status body =>
    if !httpOk status then .error ()
    else
      match extractMainContent body with
      | none => .error ()
      | some c => if c = "" then .error () else .ok c

/-! ## Scraper dispatch (`ArticlesScraper.getScraperForUrl`) -/

/-- The authority component: characters up to `/`, `:`, `?` or `#`; empty
means the URL is invalid. -/
def hostFrom (rest : List Char) : Option String :=
  match rest.takeWhile (fun c => !(c = '/' || c = ':' || c = '?' || c = '#')) with
  | [] => none
  | l => some (String.mk l)


/-- Boundary model of `new URL(url).hostname`: an `http://` or `https://`
scheme followed by a nonempty authority read up to the first delimiter; any
other input makes the constructor throw, modelled as `none`. -/
def parseHostname (url : String) : Option String :=
  if ("http://".data).isPrefixOf url.data then hostFrom (url.data.drop 7)
  else if ("https://".data).isPrefixOf url.data then hostFrom (url.data.drop 8)
  else none
/-- The `for (const [baseUrl, scraper] of this.scrapers)` loop: first entry
whose key occurs inside the hostname wins. -/
def findScraperLoop : List (String × Scraper) → String → Option Scraper
  | [], _ => none
  | (baseUrl, sc) :: rest, hostname =>
    if containsSubstring hostname baseUrl then some sc
    else findScraperLoop rest hostname

/-- `ArticlesScraper.getScraperForUrl`: parse the URL (returning `null` when
the constructor throws), lower-case the hostname, scan the registration
table. -/
def getScraperForUrl (url : String) : Option Scraper :=
  match parseHostname url with
  | none => none
  | some h => findScraperLoop scrapers (String.mk (h.data.map jsToLower))


/-! ## Inference boundary (`utils/ollama.js`) -/

/-- One call of the chat endpoint as seen through `fetch`: transport failure,
or a status plus the `message.content` field of the parsed body (absent when
the body has no such field). -/
inductive InfResult where
  | netFail
  | response (status : Nat) (content : Option String)

/-- `sendToModel` through `ollamaRequest`: a falsy model name or falsy content
throws before any request; then a transport error, a non-2xx status, or a
response without truthy `message.content` throws; otherwise the content is
returned. -/
def sendToModel (model : Option String) (content : String) (out : InfResult) : Except Unit String :=
  if !truthyStr model then .error ()
  else if content = "" then .error ()
  else
    match out with
    | .netFail => .error ()
    | .response status body =>
      if !httpOk status then .error ()
      else if truthyStr body then .ok (body.getD "") else .error ()

/-- `ArticlesScraper.convertToMarkdown`: the Ollama call's result, falling
back to the original HTML on any error. -/
def convertToMarkdown (model : Option String) (out : InfResult) (html : String) : String :=
  match sendToModel model html out with
  | .ok md => md
  | .error _ => html

/-! ## Enrichment coordinator (`articlesScrape.js`) -/

/-- The external world one enrichment run sees: the page fetches, the
inference endpoint keyed by the submitted content, the `OLLAMA_HTML_READER`
environment variable, and a storage oracle saying whether the content
`UPDATE` for a given article id fails. -/
structure EnrichEnv where
  http : String → HttpResult
  inference : String → InfResult
  htmlReaderModel : Option String
  updateFails : Nat → Bool

/-- The projection `SELECT id, url, title` returned by
`getUnprocessedArticles`. -/
structure RowArticle where
  id : Nat
  url : String
  title : String
deriving DecidableEq, Repr

/-- The object `processArticle` passes to `scraper.scrape`: only `id`, `url`
and `title` were selected, so `categories`, `contentEncoded` and `content`
are all absent. -/
def rowToArticleObj (r : RowArticle) : ArticleObj where
  title := r.title
  categories := none
  contentEncoded := none
  content := none

/-- Dispatch of `scraper.scrape(article.url, article)` for the strategy the
registry picked. -/
def runScraper (env : EnrichEnv) : Scraper → RowArticle → Except Unit String
  | .trueNorth, row => trueNorthScrape (rowToArticleObj row)
  | .cbc, row => cbcScrape env.http row.url

/-- `UPDATE <table> SET content = $1 WHERE id = $2`. -/
def updateContent (t : ArticleTable) (id : Nat) (c : String) : ArticleTable :=
  { t with rows := t.rows.map (fun r => if r.id = id then { r with content := some c } else r) }

/-- The body of `ArticlesScraper.processArticle` inside its `try`: scrape,
store the video sentinel directly, skip falsy content, convert to markdown,
skip falsy markdown, store.  An exception anywhere (scrape failure, or the
`UPDATE` transaction rolling back and rethrowing) escapes as `.error`. -/
def processArticleInner (env : EnrichEnv) (sc : Scraper) (t : ArticleTable) (row : RowArticle) :
    Except Unit ArticleTable :=
  match runScraper env sc row with
  | .error e => .error e
  | .ok html =>
    if html = "Video Content" then
      if env.updateFails row.id then .error () else .ok (updateContent t row.id "Video Content")
    else if html = "" then .ok t
    else
      match convertToMarkdown env.htmlReaderModel (env.inference html) html with
      | md =>
        if md = "" then .ok t
        else if env.updateFails row.id then .error () else .ok (updateContent t row.id md)

/-- `ArticlesScraper.processArticle`: no scraper means skip; any error raised
inside the `try` is caught and logged, leaving the table as it was. -/
def processArticle (env : EnrichEnv) (t : ArticleTable) (row : RowArticle) : ArticleTable :=
  match getScraperForUrl row.url with
  | none => t
  | some sc =>
    match processArticleInner env sc t row with
    | .ok t2 => t2
    | .error _ => t

/-- Lexicographic comparison of date representations, the order the store
applies to the `date_added` column. -/
def dateLtList : List Char → List Char → Bool
  | [], [] => false
  | [], _ :: _ => true
  | _ :: _, [] => false
  | a :: as, b :: bs =>
    if a.toNat < b.toNat then true
    else if b.toNat < a.toNat then false
    else dateLtList as bs


/-- Insert into a list already sorted by descending date, keeping ties and
equal keys stable (`ORDER BY date_added DESC`). -/
def insertDateDesc (r : ArticleRow) : List ArticleRow → List ArticleRow
  | [] => [r]
  | x :: xs =>
    if dateLtList x.date_added.data r.date_added.data then r :: x :: xs
    else x :: insertDateDesc r xs
/-- The rows `SELECT ... WHERE content IS NULL ORDER BY date_added DESC
LIMIT 5` reads, before projection. -/
def selectPendingRows (t : ArticleTable) : List ArticleRow :=
  (((t.rows.filter (fun r => r.content = none)).foldr insertDateDesc []).take 5)

/-- `ArticlesScraper.getUnprocessedArticles`: the pending rows projected to
`id, url, title`. -/
def getUnprocessedArticles (t : ArticleTable) : List RowArticle :=
  (selectPendingRows t).map (fun r => ⟨r.id, r.url, r.title⟩)

/-- `ArticlesScraper.processTable`: fetch the pending batch once, then
process its articles in order. -/
def processTable (env : EnrichEnv) (t : ArticleTable) : ArticleTable :=
  (getUnprocessedArticles t).foldl (processArticle env) t

/-- One table of `processAllTables`: a missing table makes the batch query
throw, which the surrounding catch swallows, leaving the state unchanged. -/
def enrichTable (env : EnrichEnv) (s : DbState) (name : String) : DbState :=
  match lookupTable s name with
  | none => s
  | some t => setTable s name (processTable env t)

/-- `ORDER BY channel_name` over the sources table. -/
def insertChannelAsc (r : SourceRow) : List SourceRow → List SourceRow
  | [] => [r]
  | x :: xs =>
    if dateLtList r.channel_name.data x.channel_name.data then r :: x :: xs
    else x :: insertChannelAsc r xs

/-- `ArticlesScraper.processAllTables`: list the article tables from
`sources` ordered by channel name, then enrich each in turn. -/
def processAllTables (env : EnrichEnv) (s : DbState) : DbState :=
  ((s.sources.foldr insertChannelAsc []).map (·.articles_table)).foldl (enrichTable env) s

/-! ## The pipeline's operations, as one step language -/

/-- The two mutating operations this core performs against the store. -/
inductive PipeOp where
  | ingest (fd : FeedData)
  | enrich (env : EnrichEnv)

/-- Apply one pipeline operation. -/
def applyOp (s : DbState) : PipeOp → DbState
  | .ingest fd => (storeFeedSource s fd).1
  | .enrich env => processAllTables env s

/-- Apply a run of pipeline operations in order. -/
def applyOps (s : DbState) (ops : List PipeOp) : DbState :=
  ops.foldl applyOp s

/-! ## Claim C3: batch atomicity of `storeFeedSource` -/

/-- C3.  The feed-storage batch is atomic: when any step of `storeFeedSource`
(table creation, source upsert, or an article statement) fails, the
`ROLLBACK` leaves the sources table and the per-source article table exactly
as they were before the batch; no partial batch is visible. -/
theorem storeFeedSource_atomic (s : DbState) (fd : FeedData)
    (h : (storeFeedSource s fd).2 ≠ none) :
    (storeFeedSource s fd).1 = s := by
  unfold storeFeedSource at *
  cases hx : storeFeedSourceTx s fd <;> simp [hx] at h ⊢

/-- A feed batch whose second article has no link: the first article is valid,
yet after the failing batch the state is exactly the initial one. -/
def fdC3 : FeedData where
  source := ⟨"https://feed.example/rss", "Chan", "articles_chan"⟩
  articles :=
    [⟨some "https://e.com/1", "A", .valid "2024-01-01", none, none, none⟩,
     ⟨none, "B", .valid "2024-01-02", none, none, none⟩]

/-- The empty store. -/
def initialDb : DbState := ⟨[], 1, []⟩

/-- Witness for C3: the concrete failing batch `fdC3` rolls back wholesale. -/
theorem storeFeedSource_atomic_witness :
    (storeFeedSource initialDb fdC3).2 ≠ none ∧ (storeFeedSource initialDb fdC3).1 = initialDb :=
  ⟨by decide, storeFeedSource_atomic initialDb fdC3 (by decide)⟩

/-! ## Claim C2: identifier derivation is not injective on distinct titles -/

/-- C2 counterexample.  The titles `"a b"` and `"a-b"` differ after trimming
and both sanitize to the nonempty `"a_b"`, yet they derive the same table
identifier — the claimed collision-freedom fails on the code. -/
theorem deriveTableIdentifier_counterexample :
    deriveTableIdentifier "a b" = deriveTableIdentifier "a-b" ∧
    String.mk (jsTrimList "a b".data) ≠ String.mk (jsTrimList "a-b".data) ∧
    sanitizeTableName (cleanTitle (some "a b")) ≠ "" ∧
    sanitizeTableName (cleanTitle (some "a-b")) ≠ "" := by
  decide

/-- C2 (amended).  The derivation is injective exactly up to sanitization:
whenever the sanitized cleaned titles differ, the derived identifiers differ
(the fixed namespace prefix cancels). -/
theorem deriveTableIdentifier_injective_on_sanitized (t1 t2 : String)
    (h : sanitizeTableName (cleanTitle (some t1)) ≠ sanitizeTableName (cleanTitle (some t2))) :
    deriveTableIdentifier t1 ≠ deriveTableIdentifier t2 := by
  intro heq
  apply h
  unfold deriveTableIdentifier at heq
  have hd := congrArg String.data heq
  rw [String.data_append, String.data_append] at hd
  exact String.ext (List.append_cancel_left hd)

/-- Witness for the amended C2 at the titles `"Alpha"` and `"Beta"`. -/
theorem deriveTableIdentifier_injective_on_sanitized_witness :
    deriveTableIdentifier "Alpha" ≠ deriveTableIdentifier "Beta" :=
  deriveTableIdentifier_injective_on_sanitized "Alpha" "Beta" (by decide)

/-! ## Claim C7: dispatch is substring matching, not suffix matching -/

/-- Is `d` a suffix of the host — the matching relation the claim asserts. -/
def suffixOfHost (d h : String) : Bool :=
  d.data.isSuffixOf h.data

/-- C7 counterexample.  For `https://cbc.ca.evil.com/story` no registered
domain is a suffix of the host, yet resolution returns the `cbc` strategy,
because the loop tests `hostname.includes(baseUrl)` — substring containment,
not suffix matching. -/
theorem getScraperForUrl_counterexample :
    parseHostname "https://cbc.ca.evil.com/story" = some "cbc.ca.evil.com" ∧
    (∀ p ∈ scrapers, suffixOfHost p.1 "cbc.ca.evil.com" = false) ∧
    getScraperForUrl "https://cbc.ca.evil.com/story" = some Scraper.cbc := by
  decide

/-- The registration loop returns nothing iff no registered key occurs inside
the hostname. -/
theorem findScraperLoop_eq_none_iff (l : List (String × Scraper)) (h : String) :
    findScraperLoop l h = none ↔ ∀ p ∈ l, containsSubstring h p.1 = false := by
  induction l with
  | nil => simp [findScraperLoop]
  | cons p rest ih =>
    obtain ⟨b, sc⟩ := p
    by_cases hc : containsSubstring h b
    · simp [findScraperLoop, hc]
    · simp [findScraperLoop, hc, ih]

/-- A hit of the registration loop is the first matching entry: the entry at
its index matches and every earlier entry does not. -/
theorem findScraperLoop_first_match (l : List (String × Scraper)) (h : String) (sc : Scraper)
    (hf : findScraperLoop l h = some sc) :
    ∃ i, ∃ hi : i < l.length,
      (l.get ⟨i, hi⟩).2 = sc ∧ containsSubstring h (l.get ⟨i, hi⟩).1 = true ∧
      ∀ p ∈ l.take i, containsSubstring h p.1 = false := by
  induction l with
  | nil => simp [findScraperLoop] at hf
  | cons p rest ih =>
    obtain ⟨b, s0⟩ := p
    by_cases hc : containsSubstring h b
    · refine ⟨0, by simp, ?_, by simpa using hc, by simp⟩
      simp [findScraperLoop, hc] at hf
      simpa using hf
    · simp only [findScraperLoop, hc] at hf
      simp only [Bool.false_eq_true, if_false] at hf
      obtain ⟨i, hi, hsc, hmatch, hbefore⟩ := ih hf
      refine ⟨i + 1, by simpa using Nat.succ_lt_succ hi, by simpa using hsc, by simpa using hmatch, ?_⟩
      intro q hq
      rcases List.mem_cons.mp (by simpa using hq) with rfl | hq2
      · simpa using hc
      · exact hbefore q hq2

/-- C7 (amended).  Strategy resolution parses the URL, lower-cases the host,
and scans the registration table in order with first match winning, where a
registered domain matches when it occurs as a substring of the host (not only
as a suffix); it returns `none` — a skip, not an error — exactly when the URL
does not parse or no registered domain occurs inside the host. -/
theorem getScraperForUrl_characterization (url : String) :
    (getScraperForUrl url = none ↔
      parseHostname url = none ∨
      ∃ h, parseHostname url = some h ∧
        ∀ p ∈ scrapers, containsSubstring (String.mk (h.data.map jsToLower)) p.1 = false) ∧
    (∀ sc, getScraperForUrl url = some sc →
      ∃ h i, ∃ hi : i < scrapers.length,
        parseHostname url = some h ∧
        (scrapers.get ⟨i, hi⟩).2 = sc ∧
        containsSubstring (String.mk (h.data.map jsToLower)) (scrapers.get ⟨i, hi⟩).1 = true ∧
        ∀ p ∈ scrapers.take i,
          containsSubstring (String.mk (h.data.map jsToLower)) p.1 = false) := by
  constructor
  · unfold getScraperForUrl
    cases hp : parseHostname url with
    | none => simp
    | some h =>
      constructor
      · intro hn
        exact Or.inr ⟨h, rfl, (findScraperLoop_eq_none_iff scrapers _).mp hn⟩
      · rintro (habs | ⟨h2, hh2, hall⟩)
        · exact absurd habs (by simp)
        · cases Option.some.inj hh2
          exact (findScraperLoop_eq_none_iff scrapers _).mpr hall
  · intro sc hsc
    unfold getScraperForUrl at hsc
    cases hp : parseHostname url with
    | none => rw [hp] at hsc; exact absurd hsc (by simp)
    | some h =>
      rw [hp] at hsc
      obtain ⟨i, hi, h1, h2, h3⟩ := findScraperLoop_first_match scrapers _ sc hsc
      exact ⟨h, i, hi, rfl, h1, h2, h3⟩

/-- Witness for the amended C7 at `https://tnc.news/x`: the first registered
entry matches. -/
theorem getScraperForUrl_characterization_witness :
    getScraperForUrl "https://tnc.news/x" = some Scraper.trueNorth ∧
    ∃ h i, ∃ hi : i < scrapers.length,
      parseHostname "https://tnc.news/x" = some h ∧
      (scrapers.get ⟨i, hi⟩).2 = Scraper.trueNorth ∧
      containsSubstring (String.mk (h.data.map jsToLower)) (scrapers.get ⟨i, hi⟩).1 = true ∧
      ∀ p ∈ scrapers.take i,
        containsSubstring (String.mk (h.data.map jsToLower)) p.1 = false :=
  ⟨by decide, (getScraperForUrl_characterization "https://tnc.news/x").2 Scraper.trueNorth (by decide)⟩

/-! ## Claim C10: malformed article URLs are skipped silently -/

/-- C10.  A string the URL constructor rejects resolves to no scraper (the
catch converts the throw into `null`), and `processArticle` then returns with
the table untouched — the article keeps `content IS NULL` and stays eligible
for a later run; nothing propagates. -/
theorem malformed_url_skipped (url : String) (h : parseHostname url = none) :
    getScraperForUrl url = none ∧
    ∀ (env : EnrichEnv) (t : ArticleTable) (row : RowArticle),
      row.url = url → processArticle env t row = t := by
  constructor
  · unfold getScraperForUrl
    rw [h]
  · intro env t row hrow
    unfold processArticle getScraperForUrl
    rw [hrow, h]

/-- An enrichment environment in which every external call fails. -/
def envAllFail : EnrichEnv := ⟨fun _ => .netFail, fun _ => .netFail, none, fun _ => false⟩

/-- A one-row table whose only article has the malformed URL `"not a url"`. -/
def tableC10 : ArticleTable :=
  ⟨[⟨3, "not a url", "T", "2025-01-02", none, none, none, none⟩], 4⟩

/-- Witness for C10 at the unparseable string `"not a url"`. -/
theorem malformed_url_skipped_witness :
    getScraperForUrl "not a url" = none ∧
    processArticle envAllFail tableC10 ⟨3, "not a url", "T"⟩ = tableC10 :=
  ⟨(malformed_url_skipped "not a url" (by decide)).1,
   (malformed_url_skipped "not a url" (by decide)).2 envAllFail tableC10 ⟨3, "not a url", "T"⟩ rfl⟩

/-! ## Claim C8: a missing publish date aborts the whole batch -/

/-- A feed item carrying a publish date. -/
def feedItemC8a : FeedItem :=
  ⟨some "https://e.com/1", some "A", some "2024-01-02", none, none, none, none⟩

/-- A feed item with no publish date at all. -/
def feedItemC8b : FeedItem :=
  ⟨some "https://e.com/2", some "B", none, none, none, none, none⟩

/-- A two-item feed, the second item lacking a publish date. -/
def feedC8 : Feed := ⟨some "Chan", [feedItemC8a, feedItemC8b]⟩

/-- C8 evaluated at the failing input.  With `pubDate` and `dcDate` both
absent, `new Date(item.pubDate || item.dcDate)` is an Invalid Date; its
insertion into the `date_added date not null` column fails and the
transaction rolls back, so NEITHER item of the two-item feed is stored — the
missing date aborts the batch instead of being replaced by a fallback
timestamp. -/
theorem missing_pubdate_aborts_batch :
    (parseItem feedItemC8b).date_added = JsDate.invalid ∧
    storeFeedSource initialDb (pullAndParseFeed "https://feed.example/rss" feedC8) =
      (initialDb, some StorageError.invalidDateValue) ∧
    lookupTable (storeFeedSource initialDb
      (pullAndParseFeed "https://feed.example/rss" feedC8)).1 "articles_chan" = none := by
  decide

/-! ## Claim C5: the video sentinel is unreachable from the coordinator -/

/-- A feed item whose categories include `"Videos"`. -/
def feedItemC5 : FeedItem :=
  ⟨some "https://tnc.news/video1", some "V", some "2025-01-01", some ["Videos"],
   some "<p>embed</p>", none, none⟩

/-- The article object the OLD data path would hand the scraper: the parsed
feed article with its categories and encoded content. -/
def articleObjOfParsed (a : ParsedArticle) : ArticleObj :=
  ⟨a.title, a.categories, a.contentEncoded, a.content⟩

/-- The stored row for the video article, pending enrichment. -/
def tableC5 : ArticleTable :=
  ⟨[⟨1, "https://tnc.news/video1", "V", "2025-01-01", none, none, none, none⟩], 2⟩

/-- An environment for the C5 run; its oracles are never consulted on the
trueNorth path. -/
def envC5 : EnrichEnv := ⟨fun _ => .netFail, fun _ => .netFail, some "reader", fun _ => false⟩

/-- C5 evaluated at the failing input.  Handed the full feed article (first
conjunct) the trueNorth scraper answers the sentinel without any fetch — the
function performs no network call on any path.  But `getUnprocessedArticles`
selects only `id, url, title`, so the coordinator's scrape call sees no
categories and no encoded content (third conjunct), throws, and the run
leaves the article's `content` NULL: the sentinel is never stored. -/
theorem video_sentinel_unreachable :
    trueNorthScrape (articleObjOfParsed (parseItem feedItemC5)) = .ok "Video Content" ∧
    getUnprocessedArticles tableC5 = [⟨1, "https://tnc.news/video1", "V"⟩] ∧
    rowToArticleObj ⟨1, "https://tnc.news/video1", "V"⟩ = ⟨"V", none, none, none⟩ ∧
    trueNorthScrape (rowToArticleObj ⟨1, "https://tnc.news/video1", "V"⟩) = .error () ∧
    processTable envC5 tableC5 = tableC5 ∧
    ∀ r ∈ (processTable envC5 tableC5).rows, r.content = none := by
  constructor
  · rfl
  constructor
  · decide
  constructor
  · decide
  constructor
  · rfl
  constructor
  · rfl
  · decide

/-! ## Claim C6: normalization failure degrades to the raw content -/

/-- C6.  `convertToMarkdown` returns the original raw content unchanged
whenever the inference call fails for any reason — transport error, non-2xx
status, or a body without `message.content` — and never propagates the error
(first conjunct); in particular, when extraction succeeded and the inference
endpoint answers HTTP 500, the content the coordinator stores is exactly the
raw extracted content (second conjunct). -/
theorem convertToMarkdown_fallback :
    (∀ (model : Option String) (html : String) (out : InfResult),
      (∃ e, sendToModel model html out = .error e) →
      convertToMarkdown model out html = html) ∧
    (∀ (env : EnrichEnv) (t : ArticleTable) (row : RowArticle) (sc : Scraper)
        (raw : String) (b : Option String),
      getScraperForUrl row.url = some sc →
      runScraper env sc row = .ok raw →
      raw ≠ "Video Content" → raw ≠ "" →
      env.inference raw = .response 500 b →
      env.updateFails row.id = false →
      processArticle env t row = updateContent t row.id raw ∧
      ∀ r ∈ (processArticle env t row).rows, r.id = row.id → r.content = some raw) := by
  have hfall : ∀ (model : Option String) (html : String) (out : InfResult),
      (∃ e, sendToModel model html out = .error e) →
      convertToMarkdown model out html = html := by
    intro model html out ⟨e, he⟩
    unfold convertToMarkdown
    rw [he]
  refine ⟨hfall, ?_⟩
  intro env t row sc raw b hs hrun hvid hraw hinf hupd
  have h500 : ∃ e, sendToModel env.htmlReaderModel raw (env.inference raw) = .error e := by
    rw [hinf]
    unfold sendToModel
    by_cases hm : truthyStr env.htmlReaderModel
    · simp [hm, hraw, httpOk]
    · simp [hm]
  have hmd : convertToMarkdown env.htmlReaderModel (env.inference raw) raw = raw :=
    hfall env.htmlReaderModel raw (env.inference raw) h500
  have hinner : processArticleInner env sc t row = .ok (updateContent t row.id raw) := by
    unfold processArticleInner
    rw [hrun]
    simp only [if_neg hvid, if_neg hraw, hmd, hupd, Bool.false_eq_true, if_false]
  have hres : processArticle env t row = updateContent t row.id raw := by
    simp [processArticle, hs, hinner]
  refine ⟨hres, ?_⟩
  intro r hr hid
  rw [hres] at hr
  unfold updateContent at hr
  simp only [List.mem_map] at hr
  obtain ⟨r0, _, hr0⟩ := hr
  by_cases h0 : r0.id = row.id
  · rw [if_pos h0] at hr0
    rw [← hr0]
  · rw [if_neg h0] at hr0
    rw [← hr0] at hid
    exact absurd hid h0

/-- A pending CBC article row. -/
def rowC6 : RowArticle := ⟨7, "https://www.cbc.ca/news/x", "T"⟩

/-- The table holding `rowC6`. -/
def tableC6 : ArticleTable :=
  ⟨[⟨7, "https://www.cbc.ca/news/x", "T", "2025-01-03", none, none, none, none⟩], 8⟩

/-- An environment in which the page fetch succeeds with a simple main
element and the inference endpoint answers HTTP 500. -/
def envC6 : EnrichEnv where
  http := fun u => if u = "https://www.cbc.ca/news/x" then .response 200 "<main>Hello</main>" else .netFail
  inference := fun _ => .response 500 none
  htmlReaderModel := some "reader"
  updateFails := fun _ => false

/-- Witness for C6: extraction succeeds with raw content `"Hello"`, the
inference endpoint answers 500, and exactly `"Hello"` is stored. -/
theorem convertToMarkdown_fallback_witness :
    processArticle envC6 tableC6 rowC6 = updateContent tableC6 7 "Hello" ∧
    ∀ r ∈ (processArticle envC6 tableC6 rowC6).rows, r.id = rowC6.id → r.content = some "Hello" := by
  have h := convertToMarkdown_fallback.2 envC6 tableC6 rowC6 .cbc "Hello" none
    (by decide) (by rfl) (by decide) (by decide) (by rfl) (by rfl)
  exact ⟨h.1, h.2⟩

/-! ## Claim C4: per-article failures are contained -/

/-- Whether `processArticleInner` fails does not depend on the table: its
error paths (scrape throw, or the content `UPDATE` rolling back and
rethrowing) are decided by the environment and the row alone. -/
theorem processArticleInner_error_indep (env : EnrichEnv) (sc : Scraper) (row : RowArticle)
    (t t2 : ArticleTable) (e : Unit)
    (h : processArticleInner env sc t row = .error e) :
    processArticleInner env sc t2 row = .error () := by
  unfold processArticleInner at h ⊢
  cases hr : runScraper env sc row with
  | error e2 => rfl
  | ok html =>
    simp only [hr] at h ⊢
    by_cases hv : html = "Video Content"
    · by_cases hu : env.updateFails row.id = true
      · simp [hv, hu]
      · simp [hv, hu] at h
    · by_cases he : html = ""
      · simp [hv, he] at h
      · by_cases hm : convertToMarkdown env.htmlReaderModel (env.inference html) html = ""
        · simp [hv, he, hm] at h
        · by_cases hu : env.updateFails row.id = true
          · simp [hv, he, hm, hu]
          · simp [hv, he, hm, hu] at h

/-- C4.  A failure while processing one article is caught: the coordinator
leaves the table as it was (first conjunct) and the batch fold continues with
the remaining articles exactly as if the failing article were absent (second
conjunct); `processArticle` and `processTable` are total, so no per-article
error can propagate out of the coordinator. -/
theorem processTable_failure_containment (env : EnrichEnv) (t : ArticleTable)
    (row : RowArticle) (sc : Scraper) (e : Unit)
    (hs : getScraperForUrl row.url = some sc)
    (hf : processArticleInner env sc t row = .error e) :
    processArticle env t row = t ∧
    ∀ pre post, getUnprocessedArticles t = pre ++ row :: post →
      processTable env t = (pre ++ post).foldl (processArticle env) t := by
  have hskip : ∀ acc : ArticleTable, processArticle env acc row = acc := by
    intro acc
    have h2 := processArticleInner_error_indep env sc row t acc e hf
    simp [processArticle, hs, h2]
  refine ⟨hskip t, ?_⟩
  intro pre post hbatch
  unfold processTable
  rw [hbatch, List.foldl_append, List.foldl_append, List.foldl_cons, hskip]

/-- A pending trueNorth article row (the scraper will throw: the projected
row carries neither categories nor content). -/
def tableC4 : ArticleTable :=
  ⟨[⟨3, "https://tnc.news/a", "T", "2025-01-02", none, none, none, none⟩], 4⟩

/-- Witness for C4: the failing trueNorth article is skipped and the batch
fold over the remaining (empty) list still runs. -/
theorem processTable_failure_containment_witness :
    processArticle envAllFail tableC4 ⟨3, "https://tnc.news/a", "T"⟩ = tableC4 ∧
    processTable envAllFail tableC4 =
      (([] : List RowArticle) ++ []).foldl (processArticle envAllFail) tableC4 := by
  have h := processTable_failure_containment envAllFail tableC4 ⟨3, "https://tnc.news/a", "T"⟩
    .trueNorth () (by decide) (by rfl)
  exact ⟨h.1, h.2 [] [] (by decide)⟩

/-! ## Support lemmas: the store under table creation and source upsert -/

/-- Writing under `name` rewrites exactly the entry found under `name`. -/
theorem findTbl_setTbl (tbls : List (String × ArticleTable)) (name : String) (t : ArticleTable) :
    findTbl (setTbl tbls name t) name = (findTbl tbls name).map (fun _ => t) := by
  induction tbls with
  | nil => rfl
  | cons p rest ih =>
    by_cases hp : p.1 = name
    · simp [findTbl, setTbl, List.find?_cons, hp]
    · unfold findTbl setTbl at ih ⊢
      simp only [List.map_cons, if_neg hp]
      rw [List.find?_cons_of_neg _ (by simpa using hp), List.find?_cons_of_neg _ (by simpa using hp)]
      exact ih

/-- Writing under `name` leaves every other name's entry alone. -/
theorem findTbl_setTbl_ne (tbls : List (String × ArticleTable)) (name name2 : String)
    (t : ArticleTable) (h : name2 ≠ name) :
    findTbl (setTbl tbls name t) name2 = findTbl tbls name2 := by
  induction tbls with
  | nil => rfl
  | cons p rest ih =>
    unfold findTbl setTbl at ih ⊢
    by_cases hp : p.1 = name2
    · have hq : ¬(p.1 = name) := by rw [hp]; exact h
      simp only [List.map_cons, if_neg hq]
      rw [List.find?_cons_of_pos _ (by simpa using hp),
        List.find?_cons_of_pos _ (by simpa using hp)]
    · by_cases hq : p.1 = name
      · simp only [List.map_cons, if_pos hq]
        rw [List.find?_cons_of_neg _ (by simp; rw [hq]; exact fun hh => h hh.symm),
          List.find?_cons_of_neg _ (by simpa using hp)]
        exact ih
      · simp only [List.map_cons, if_neg hq]
        rw [List.find?_cons_of_neg _ (by simpa using hp),
          List.find?_cons_of_neg _ (by simpa using hp)]
        exact ih

/-- Overwriting twice collapses to the second write. -/
theorem setTbl_setTbl (tbls : List (String × ArticleTable)) (name : String)
    (t1 t2 : ArticleTable) :
    setTbl (setTbl tbls name t1) name t2 = setTbl tbls name t2 := by
  unfold setTbl
  rw [List.map_map]
  apply List.map_congr_left
  intro p _
  by_cases hp : p.1 = name <;> simp [hp]

/-- `setTable` leaves the `sources` table untouched. -/
theorem setTable_sources (s : DbState) (name : String) (t : ArticleTable) :
    (setTable s name t).sources = s.sources := rfl

/-- After `CREATE TABLE IF NOT EXISTS`, the table exists. -/
theorem lookupTable_create (s : DbState) (name : String) :
    ∃ t0, lookupTable (createArticlesTableIfNotExists s name) name = some t0 := by
  unfold createArticlesTableIfNotExists
  cases h : lookupTable s name with
  | some t0 => exact ⟨t0, h⟩
  | none =>
    refine ⟨⟨[], 1⟩, ?_⟩
    unfold lookupTable findTbl at h ⊢
    rw [List.find?_append]
    cases hf : s.tables.find? (fun p => p.1 = name) with
    | some q => rw [hf] at h; simp at h
    | none => simp

/-- Table creation does not disturb tables that already exist. -/
theorem lookupTable_create_preserves (s : DbState) (name name2 : String) (t : ArticleTable)
    (h : lookupTable s name2 = some t) :
    lookupTable (createArticlesTableIfNotExists s name) name2 = some t := by
  unfold createArticlesTableIfNotExists
  cases hl : lookupTable s name with
  | some _ => exact h
  | none =>
    unfold lookupTable findTbl at h ⊢
    rw [List.find?_append]
    cases hf : s.tables.find? (fun p => p.1 = name2) with
    | none => rw [hf] at h; simp at h
    | some q => rw [hf] at h; simp_all

/-- Table creation keeps `sources` unchanged. -/
theorem create_sources (s : DbState) (name : String) :
    (createArticlesTableIfNotExists s name).sources = s.sources := by
  unfold createArticlesTableIfNotExists
  cases lookupTable s name <;> rfl

/-- The conflict-update `upsertSource` performs on one `sources` row. -/
def updSourceRow (src : SourceRec) (r : SourceRow) : SourceRow :=
  if r.url = src.url then
    { r with channel_name := src.channel_name, articles_table := src.articles_table }
  else r

/-- The row update never changes the endpoint URL. -/
theorem updSourceRow_url (src : SourceRec) (r : SourceRow) :
    (updSourceRow src r).url = r.url := by
  unfold updSourceRow
  by_cases hr : r.url = src.url <;> simp [hr]

/-- The row update is idempotent. -/
theorem updSourceRow_idem (src : SourceRec) (r : SourceRow) :
    updSourceRow src (updSourceRow src r) = updSourceRow src r := by
  unfold updSourceRow
  by_cases hr : r.url = src.url <;> simp [hr]

/-- The overwrite branch of `upsertSource` is the map of `updSourceRow`. -/
theorem upsertSource_found (s : DbState) (src : SourceRec) (r0 : SourceRow)
    (hf : s.sources.find? (fun r => r.url = src.url) = some r0)
    (hcol : ¬(s.sources.any (fun r =>
      r.url ≠ src.url && (r.channel_name = src.channel_name || r.articles_table = src.articles_table)) = true)) :
    upsertSource s src = .ok { s with sources := s.sources.map (updSourceRow src) } := by
  unfold upsertSource
  rw [hf, if_neg hcol]
  rfl

/-- A successful `upsertSource` run is stable: running it again over the
resulting `sources` rows (under any table state) changes nothing. -/
theorem upsertSource_idem_general (s : DbState) (src : SourceRec) (sU : DbState)
    (h : upsertSource s src = .ok sU) (s2 : DbState) (hs2 : s2.sources = sU.sources) :
    upsertSource s2 src = .ok s2 := by
  unfold upsertSource at h
  cases hf : s.sources.find? (fun r => r.url = src.url) with
  | some r0 =>
    simp only [hf] at h
    split at h
    · simp at h
    · rename_i hcol
      have hsU : sU.sources = s.sources.map (updSourceRow src) := by
        have := congrArg DbState.sources (Except.ok.inj h)
        rw [← this]
        rfl
      have hsrc2 : s2.sources = s.sources.map (updSourceRow src) := by rw [hs2, hsU]
      have hr0mem : r0 ∈ s.sources := List.mem_of_find?_eq_some hf
      have hr0p : r0.url = src.url := by simpa using List.find?_some hf
      have hcol2 : ∀ x ∈ s.sources, ¬((fun r =>
          r.url ≠ src.url && (r.channel_name = src.channel_name || r.articles_table = src.articles_table)) x = true) :=
        List.any_eq_false.mp ((Bool.not_eq_true _) ▸ hcol)
      unfold upsertSource
      cases hf2 : s2.sources.find? (fun r => r.url = src.url) with
      | none =>
        exfalso
        have hmem : updSourceRow src r0 ∈ s2.sources := by
          rw [hsrc2]
          exact List.mem_map_of_mem _ hr0mem
        have := List.find?_eq_none.mp hf2 _ hmem
        rw [updSourceRow_url] at this
        simp [hr0p] at this
      | some r1 =>
        have hany2 : ¬(s2.sources.any (fun r =>
            r.url ≠ src.url && (r.channel_name = src.channel_name || r.articles_table = src.articles_table)) = true) := by
          rw [hsrc2]
          intro hany
          obtain ⟨x, hx, hpx⟩ := List.any_eq_true.mp hany
          obtain ⟨r, hr, rfl⟩ := List.mem_map.mp hx
          by_cases hru : r.url = src.url
          · rw [Bool.and_eq_true] at hpx
            have := hpx.1
            rw [updSourceRow_url] at this
            simp [hru] at this
          · rw [show updSourceRow src r = r from if_neg hru] at hpx
            exact hcol2 r hr hpx
        rw [if_neg hany2]
        have hmap : s2.sources.map (updSourceRow src) = s2.sources := by
          rw [hsrc2, List.map_map]
          apply List.map_congr_left
          intro r _
          exact updSourceRow_idem src r
        have : (fun r => if r.url = src.url then
            { r with channel_name := src.channel_name, articles_table := src.articles_table }
            else r) = updSourceRow src := rfl
        rw [this, hmap]
  | none =>
    simp only [hf] at h
    split at h
    · simp at h
    · rename_i hcol
      have hsU : sU.sources =
          s.sources ++ [⟨s.sourcesNextId, src.url, src.channel_name, src.articles_table⟩] := by
        have := congrArg DbState.sources (Except.ok.inj h)
        rw [← this]
      have hsrc2 : s2.sources =
          s.sources ++ [⟨s.sourcesNextId, src.url, src.channel_name, src.articles_table⟩] := by
        rw [hs2, hsU]
      have hnone : ∀ r ∈ s.sources, ¬(r.url = src.url) := by
        intro r hr
        have := List.find?_eq_none.mp hf _ hr
        simpa using this
      have hcol2 : ∀ x ∈ s.sources, ¬((fun r =>
          (r.channel_name = src.channel_name || r.articles_table = src.articles_table)) x = true) :=
        List.any_eq_false.mp ((Bool.not_eq_true _) ▸ hcol)
      unfold upsertSource
      cases hf2 : s2.sources.find? (fun r => r.url = src.url) with
      | none =>
        exfalso
        have hmem : (⟨s.sourcesNextId, src.url, src.channel_name, src.articles_table⟩ : SourceRow)
            ∈ s2.sources := by
          rw [hsrc2]
          simp
        have := List.find?_eq_none.mp hf2 _ hmem
        simp at this
      | some r1 =>
        have hany2 : ¬(s2.sources.any (fun r =>
            r.url ≠ src.url && (r.channel_name = src.channel_name || r.articles_table = src.articles_table)) = true) := by
          rw [hsrc2]
          intro hany
          obtain ⟨x, hx, hpx⟩ := List.any_eq_true.mp hany
          rw [Bool.and_eq_true] at hpx
          rcases List.mem_append.mp hx with hx1 | hx2
          · exact hcol2 x hx1 hpx.2
          · have : x = (⟨s.sourcesNextId, src.url, src.channel_name, src.articles_table⟩ : SourceRow) := by
              simpa using hx2
            rw [this] at hpx
            simp at hpx
        rw [if_neg hany2]
        have hmap : s2.sources.map (updSourceRow src) = s2.sources := by
          rw [hsrc2, List.map_append]
          congr 1
          · have hid : ∀ r ∈ s.sources, updSourceRow src r = r := by
              intro r hr
              exact if_neg (hnone r hr)
            rw [List.map_congr_left hid]
            simp
          · simp [updSourceRow]
        have hfun : (fun r => if r.url = src.url then
            { r with channel_name := src.channel_name, articles_table := src.articles_table }
            else r) = updSourceRow src := rfl
        rw [hfun, hmap]

/-! ## The article upsert as a pure fold, and its algebra -/

/-- The successful article statements of a batch, as `(url, title, date)`
keys; `none` when some article has no link or an invalid date. -/
def artKeys : List ParsedArticle → Option (List (String × String × String))
  | [] => some []
  | a :: as =>
    match a.url, a.date_added with
    | some u, .valid d => (artKeys as).map (fun ks => (u, a.title, d) :: ks)
    | _, _ => none

/-- Folding the pure upsert step over a key list. -/
def applySteps (t : ArticleTable) (ks : List (String × String × String)) : ArticleTable :=
  ks.foldl (fun t k => stepArticle t k.1 k.2.1 k.2.2) t

/-- `upsertArticles` succeeds exactly when every article is storable, and then
equals the pure fold of `stepArticle` over the batch keys. -/
theorem upsertArticles_ok_iff (arts : List ParsedArticle) :
    ∀ t t2 : ArticleTable, upsertArticles t arts = .ok t2 ↔
      ∃ ks, artKeys arts = some ks ∧ applySteps t ks = t2 := by
  induction arts with
  | nil =>
    intro t t2
    constructor
    · intro h
      exact ⟨[], rfl, (Except.ok.inj h)⟩
    · rintro ⟨ks, hks, happ⟩
      cases Option.some.inj hks
      exact congrArg Except.ok happ
  | cons a as ih =>
    intro t t2
    unfold upsertArticles at *
    rw [List.foldlM_cons]
    cases hu : a.url with
    | none =>
      constructor
      · intro h
        rw [show insertOrUpdateArticle t a = .error .notNullViolation by
          unfold insertOrUpdateArticle; rw [hu]] at h
        exact Except.noConfusion
          (h : (Except.error StorageError.notNullViolation : Except StorageError ArticleTable) = .ok t2)
      · rintro ⟨ks, hks, -⟩
        unfold artKeys at hks
        rw [hu] at hks
        simp at hks
    | some u =>
      cases hd : a.date_added with
      | invalid =>
        constructor
        · intro h
          rw [show insertOrUpdateArticle t a = .error .invalidDateValue by
            unfold insertOrUpdateArticle; rw [hu, hd]] at h
          exact Except.noConfusion
            (h : (Except.error StorageError.invalidDateValue : Except StorageError ArticleTable) = .ok t2)
        · rintro ⟨ks, hks, -⟩
          unfold artKeys at hks
          rw [hu, hd] at hks
          simp at hks
      | valid d =>
        rw [show insertOrUpdateArticle t a = .ok (stepArticle t u a.title d) by
          unfold insertOrUpdateArticle; rw [hu, hd]]
        rw [show (Except.ok (stepArticle t u a.title d) >>= fun t2 =>
            List.foldlM insertOrUpdateArticle t2 as) =
          List.foldlM insertOrUpdateArticle (stepArticle t u a.title d) as from rfl]
        rw [ih (stepArticle t u a.title d) t2]
        constructor
        · rintro ⟨ks, hks, happ⟩
          refine ⟨(u, a.title, d) :: ks, ?_, ?_⟩
          · unfold artKeys
            rw [hu, hd, hks]
            rfl
          · rw [← happ]
            rfl
        · rintro ⟨ks, hks, happ⟩
          unfold artKeys at hks
          rw [hu, hd] at hks
          cases hks2 : artKeys as with
          | none => rw [hks2] at hks; simp at hks
          | some ks0 =>
            rw [hks2] at hks
            have : ks = (u, a.title, d) :: ks0 := by simpa using hks.symm
            refine ⟨ks0, rfl, ?_⟩
            rw [← happ, this]
            rfl

/-- Updating the title and date touches no row's URL: URL membership is
invariant under `setTitleDate`. -/
theorem hasUrl_setTitleDate (rows : List ArticleRow) (u ti d v : String) :
    hasUrl (setTitleDate rows u ti d) v = hasUrl rows v := by
  induction rows with
  | nil => rfl
  | cons r rest ih =>
    unfold setTitleDate hasUrl at ih ⊢
    simp only [List.map_cons, List.any_cons]
    rw [ih]
    congr 1
    by_cases hr : r.url = u <;> simp [hr]

/-- URL membership after one upsert step: the old URLs plus the stepped one. -/
theorem hasUrl_stepArticle (t : ArticleTable) (u ti d v : String) :
    hasUrl (stepArticle t u ti d).rows v = (hasUrl t.rows v || decide (u = v)) := by
  unfold stepArticle
  by_cases hh : hasUrl t.rows u = true
  · rw [if_pos hh]
    simp only
    rw [hasUrl_setTitleDate]
    by_cases huv : u = v
    · subst huv
      simp [hh]
    · simp [huv]
  · rw [if_neg hh]
    unfold hasUrl at *
    simp [List.any_append]

/-- URL membership is monotone along the batch fold. -/
theorem hasUrl_applySteps (ks : List (String × String × String)) :
    ∀ t : ArticleTable, ∀ v, hasUrl t.rows v = true → hasUrl (applySteps t ks).rows v = true := by
  induction ks with
  | nil => intro t v h; exact h
  | cons k ks ih =>
    intro t v h
    unfold applySteps at ih ⊢
    rw [List.foldl_cons]
    apply ih
    rw [hasUrl_stepArticle]
    simp [h]

/-- Two title/date updates of the same URL collapse to the second. -/
theorem setTitleDate_twice (rows : List ArticleRow) (u a b c d : String) :
    setTitleDate (setTitleDate rows u a b) u c d = setTitleDate rows u c d := by
  unfold setTitleDate
  rw [List.map_map]
  apply List.map_congr_left
  intro r _
  by_cases hr : r.url = u <;> simp [hr]

/-- Title/date updates of distinct URLs commute. -/
theorem setTitleDate_comm (rows : List ArticleRow) (u v : String) (huv : ¬u = v)
    (a b c d : String) :
    setTitleDate (setTitleDate rows u a b) v c d =
      setTitleDate (setTitleDate rows v c d) u a b := by
  unfold setTitleDate
  rw [List.map_map, List.map_map]
  apply List.map_congr_left
  intro r _
  obtain ⟨rid, rurl, rti, rda, rc, rs, rsc, rt⟩ := r
  simp only [Function.comp]
  by_cases hru : rurl = u
  · have hrv : ¬(rurl = v) := by rw [hru]; exact huv
    simp [hru, hrv, huv]
  · have hvu : ¬(v = u) := fun hh => huv hh.symm
    by_cases hrv : rurl = v <;> simp [hru, hrv, huv, hvu]

/-- Updating a URL that no row carries is a no-op. -/
theorem setTitleDate_not_mem (rows : List ArticleRow) (u a b : String)
    (h : hasUrl rows u = false) : setTitleDate rows u a b = rows := by
  unfold setTitleDate
  have hall := List.any_eq_false.mp h
  have : ∀ r ∈ rows, (if r.url = u then { r with title := a, date_added := b } else r) = r := by
    intro r hr
    have : ¬(r.url = u) := by simpa using hall r hr
    exact if_neg this
  rw [List.map_congr_left this]
  simp

/-- Updating rows to the title and date they already carry is a no-op. -/
theorem setTitleDate_id (rows : List ArticleRow) (u ti d : String)
    (h : ∀ r ∈ rows, r.url = u → r.title = ti ∧ r.date_added = d) :
    setTitleDate rows u ti d = rows := by
  unfold setTitleDate
  have : ∀ r ∈ rows, (if r.url = u then { r with title := ti, date_added := d } else r) = r := by
    intro r hr
    by_cases hru : r.url = u
    · rw [if_pos hru]
      obtain ⟨h1, h2⟩ := h r hr hru
      cases r
      simp_all
    · exact if_neg hru
  rw [List.map_congr_left this]
  simp

/-- An update slides past an appended row with a different URL. -/
theorem setTitleDate_append (rows : List ArticleRow) (r0 : ArticleRow) (u a b : String)
    (h : ¬(r0.url = u)) :
    setTitleDate (rows ++ [r0]) u a b = setTitleDate rows u a b ++ [r0] := by
  unfold setTitleDate
  rw [List.map_append]
  simp [h]

/-- Absorption: a title/date rewrite of a URL that occurs later in the batch
is overwritten by the fold and can be dropped. -/
theorem applySteps_absorb (ks : List (String × String × String)) (u a b : String) :
    ∀ t : ArticleTable, u ∈ ks.map (fun k => k.1) →
      applySteps { t with rows := setTitleDate t.rows u a b } ks = applySteps t ks := by
  induction ks with
  | nil =>
    intro t h
    simp at h
  | cons k ks ih =>
    intro t hmem
    obtain ⟨v, c, d⟩ := k
    unfold applySteps at ih ⊢
    rw [List.foldl_cons, List.foldl_cons]
    by_cases hvu : v = u
    · subst hvu
      by_cases hh : hasUrl t.rows v = true
      · have h1 : stepArticle { t with rows := setTitleDate t.rows v a b } v c d
            = stepArticle t v c d := by
          unfold stepArticle
          simp only [hasUrl_setTitleDate]
          rw [if_pos hh, if_pos hh]
          simp only [setTitleDate_twice]
        rw [h1]
      · have hset : setTitleDate t.rows v a b = t.rows :=
          setTitleDate_not_mem _ _ _ _ (by simpa using hh)
        rw [hset]
    · have hmem2 : u ∈ ks.map (fun k => k.1) := by
        simp only [List.map_cons, List.mem_cons] at hmem
        rcases hmem with hc | hc
        · exact absurd hc.symm hvu
        · exact hc
      by_cases hh : hasUrl t.rows v = true
      · have h1 : stepArticle { t with rows := setTitleDate t.rows u a b } v c d
            = { (stepArticle t v c d) with
                rows := setTitleDate (stepArticle t v c d).rows u a b } := by
          unfold stepArticle
          simp only [hasUrl_setTitleDate]
          rw [if_pos hh, if_pos hh]
          rw [setTitleDate_comm t.rows u v (fun hh2 => hvu hh2.symm) a b c d]
        rw [h1]
        exact ih (stepArticle t v c d) hmem2
      · have h1 : stepArticle { t with rows := setTitleDate t.rows u a b } v c d
            = { (stepArticle t v c d) with
                rows := setTitleDate (stepArticle t v c d).rows u a b } := by
          unfold stepArticle
          simp only [hasUrl_setTitleDate]
          rw [if_neg hh, if_neg hh]
          simp only
          rw [setTitleDate_append t.rows _ u a b
            (show ¬((⟨t.nextId, v, c, d, none, none, none, none⟩ : ArticleRow).url = u) from hvu)]
        rw [h1]
        exact ih (stepArticle t v c d) hmem2

/-- After an upsert step, every row carrying its URL shows its title/date. -/
theorem stepArticle_sets_vals (t : ArticleTable) (u ti d : String) :
    ∀ r ∈ (stepArticle t u ti d).rows, r.url = u → r.title = ti ∧ r.date_added = d := by
  intro r hr hru
  unfold stepArticle at hr
  by_cases hh : hasUrl t.rows u = true
  · rw [if_pos hh] at hr
    unfold setTitleDate at hr
    simp only [List.mem_map] at hr
    obtain ⟨r0, _, hr0⟩ := hr
    by_cases h0 : r0.url = u
    · rw [if_pos h0] at hr0
      rw [← hr0]
      exact ⟨rfl, rfl⟩
    · rw [if_neg h0] at hr0
      rw [← hr0] at hru
      exact absurd hru h0
  · rw [if_neg hh] at hr
    simp only [List.mem_append, List.mem_singleton] at hr
    rcases hr with hr | hr
    · have hall : ∀ x ∈ t.rows, ¬(decide (x.url = u) = true) := by
        apply List.any_eq_false.mp
        unfold hasUrl at hh
        simpa using hh
      have := hall r hr
      simp at this
      exact absurd hru this
    · rw [hr]
      exact ⟨rfl, rfl⟩

/-- Rows of a URL untouched by the rest of the batch keep their title/date
through the fold. -/
theorem applySteps_frame_vals (ks : List (String × String × String)) (u ti d : String) :
    ∀ t : ArticleTable, u ∉ ks.map (fun k => k.1) →
      (∀ r ∈ t.rows, r.url = u → r.title = ti ∧ r.date_added = d) →
      ∀ r ∈ (applySteps t ks).rows, r.url = u → r.title = ti ∧ r.date_added = d := by
  induction ks with
  | nil => intro t _ hP; exact hP
  | cons k ks ih =>
    intro t hmem hP
    obtain ⟨v, c, e⟩ := k
    have hvu : ¬(v = u) := by
      intro hc
      exact hmem (by simp [hc])
    have hmem2 : u ∉ ks.map (fun k => k.1) := by
      intro hc
      exact hmem (by simp [hc])
    unfold applySteps
    rw [List.foldl_cons]
    apply ih (stepArticle t v c e) hmem2
    intro r hr hru
    unfold stepArticle at hr
    by_cases hh : hasUrl t.rows v = true
    · rw [if_pos hh] at hr
      unfold setTitleDate at hr
      simp only [List.mem_map] at hr
      obtain ⟨r0, hr0mem, hr0⟩ := hr
      by_cases h0 : r0.url = v
      · rw [if_pos h0] at hr0
        rw [← hr0] at hru
        have hru2 : r0.url = u := hru
        rw [hru2] at h0
        exact absurd h0.symm hvu
      · rw [if_neg h0] at hr0
        rw [← hr0]
        exact hP r0 hr0mem (by rw [hr0]; exact hru)
    · rw [if_neg hh] at hr
      simp only [List.mem_append, List.mem_singleton] at hr
      rcases hr with hr | hr
      · exact hP r hr hru
      · rw [hr] at hru
        exact absurd hru hvu

/-- The upsert step on a URL already present is the title/date rewrite. -/
theorem stepArticle_of_hasUrl (t : ArticleTable) (u ti d : String)
    (h : hasUrl t.rows u = true) :
    stepArticle t u ti d = { t with rows := setTitleDate t.rows u ti d } := by
  unfold stepArticle
  rw [if_pos h]

/-- Idempotence of the batch fold: running the same upsert batch again over
its own result changes nothing. -/
theorem applySteps_idem (ks : List (String × String × String)) :
    ∀ t : ArticleTable, applySteps (applySteps t ks) ks = applySteps t ks := by
  induction ks with
  | nil => intro t; rfl
  | cons k ks ih =>
    intro t
    obtain ⟨u, a, b⟩ := k
    have hfold : applySteps t ((u, a, b) :: ks) = applySteps (stepArticle t u a b) ks := by
      unfold applySteps
      rw [List.foldl_cons]
    rw [hfold]
    have hT : hasUrl (applySteps (stepArticle t u a b) ks).rows u = true := by
      apply hasUrl_applySteps
      rw [hasUrl_stepArticle]
      simp
    have hfold2 : applySteps (applySteps (stepArticle t u a b) ks) ((u, a, b) :: ks) =
        applySteps (stepArticle (applySteps (stepArticle t u a b) ks) u a b) ks := by
      unfold applySteps
      rw [List.foldl_cons]
    rw [hfold2]
    rw [stepArticle_of_hasUrl _ u a b hT]
    by_cases hmem : u ∈ ks.map (fun k => k.1)
    · rw [applySteps_absorb ks u a b _ hmem]
      exact ih (stepArticle t u a b)
    · have hP : ∀ r ∈ (applySteps (stepArticle t u a b) ks).rows,
          r.url = u → r.title = a ∧ r.date_added = b :=
        applySteps_frame_vals ks u a b (stepArticle t u a b) hmem (stepArticle_sets_vals t u a b)
      rw [setTitleDate_id _ _ _ _ hP]
      exact ih (stepArticle t u a b)

/-- The columns the feed upsert must not clobber: everything except `title`
and `date_added`. -/
def keepsEnrichment (r r2 : ArticleRow) : Prop :=
  r2.id = r.id ∧ r2.url = r.url ∧ r2.content = r.content ∧
  r2.summary = r.summary ∧ r2.scrape_check = r.scrape_check ∧ r2.topic_id = r.topic_id

/-- One upsert step keeps every pre-existing row, changing at most its title
and date. -/
theorem stepArticle_frame (t : ArticleTable) (u ti d : String) :
    ∀ r ∈ t.rows, ∃ r2 ∈ (stepArticle t u ti d).rows, keepsEnrichment r r2 := by
  intro r hr
  unfold stepArticle
  by_cases hh : hasUrl t.rows u = true
  · rw [if_pos hh]
    refine ⟨if r.url = u then { r with title := ti, date_added := d } else r, ?_, ?_⟩
    · unfold setTitleDate
      exact List.mem_map_of_mem _ hr
    · unfold keepsEnrichment
      by_cases hru : r.url = u <;> simp [hru]
  · rw [if_neg hh]
    refine ⟨r, by simp [hr], ?_⟩
    unfold keepsEnrichment
    simp

/-- The whole batch fold keeps every pre-existing row's identity and
enrichment columns. -/
theorem applySteps_frame (ks : List (String × String × String)) :
    ∀ t : ArticleTable, ∀ r ∈ t.rows, ∃ r2 ∈ (applySteps t ks).rows, keepsEnrichment r r2 := by
  induction ks with
  | nil =>
    intro t r hr
    refine ⟨r, hr, ?_⟩
    unfold keepsEnrichment
    simp
  | cons k ks ih =>
    intro t r hr
    unfold applySteps
    rw [List.foldl_cons]
    obtain ⟨r1, hr1, hk1⟩ := stepArticle_frame t k.1 k.2.1 k.2.2 r hr
    obtain ⟨r2, hr2, hk2⟩ := ih (stepArticle t k.1 k.2.1 k.2.2) r1 hr1
    refine ⟨r2, hr2, ?_⟩
    unfold keepsEnrichment at *
    obtain ⟨a1, a2, a3, a4, a5, a6⟩ := hk1
    obtain ⟨b1, b2, b3, b4, b5, b6⟩ := hk2
    exact ⟨b1.trans a1, b2.trans a2, b3.trans a3, b4.trans a4, b5.trans a5, b6.trans a6⟩

/-- A successful source upsert leaves the article tables untouched. -/
theorem upsertSource_tables (s sU : DbState) (src : SourceRec)
    (h : upsertSource s src = .ok sU) : sU.tables = s.tables := by
  unfold upsertSource at h
  cases hf : s.sources.find? (fun r => r.url = src.url) with
  | some r0 =>
    simp only [hf] at h
    split at h
    · simp at h
    · have := congrArg DbState.tables (Except.ok.inj h)
      rw [← this]
  | none =>
    simp only [hf] at h
    split at h
    · simp at h
    · have := congrArg DbState.tables (Except.ok.inj h)
      rw [← this]

/-- Overwriting a table twice collapses to the second write. -/
theorem setTable_setTable (s : DbState) (name : String) (t1 t2 : ArticleTable) :
    setTable (setTable s name t1) name t2 = setTable s name t2 := by
  unfold setTable
  dsimp only
  rw [setTbl_setTbl]

/-- C1.  Re-running the feed upsert over rows already present updates only
`title` and `date_added`: every pre-existing row survives with its `id`,
`url`, `content`, `summary`, `scrape_check` and `topic_id` unchanged (first
conjunct); and the upsert is idempotent — running the identical batch again
returns exactly the same store (second conjunct). -/
theorem storeFeedSource_frame_and_idempotent (s s2 : DbState) (fd : FeedData)
    (h : storeFeedSource s fd = (s2, none)) :
    (∀ t t2, lookupTable s fd.source.articles_table = some t →
      lookupTable s2 fd.source.articles_table = some t2 →
      ∀ r ∈ t.rows, ∃ r2 ∈ t2.rows, keepsEnrichment r r2) ∧
    storeFeedSource s2 fd = (s2, none) := by
  have htx : storeFeedSourceTx s fd = .ok s2 := by
    unfold storeFeedSource at h
    cases hx : storeFeedSourceTx s fd with
    | ok s3 =>
      simp only [hx] at h
      have h1 : s3 = s2 := congrArg Prod.fst h
      rw [h1]
    | error e =>
      simp only [hx] at h
      exact Option.noConfusion (congrArg Prod.snd h)
  unfold storeFeedSourceTx at htx
  cases hup : upsertSource (createArticlesTableIfNotExists s fd.source.articles_table) fd.source with
  | error e =>
    simp only [hup] at htx
    exact Except.noConfusion htx
  | ok sU =>
    simp only [hup] at htx
    cases hart : upsertArticles
        ((lookupTable sU fd.source.articles_table).getD ⟨[], 1⟩) fd.articles with
    | error e =>
      simp only [hart] at htx
      exact Except.noConfusion htx
    | ok tN =>
      simp only [hart] at htx
      have hs2 : s2 = setTable sU fd.source.articles_table tN := (Except.ok.inj htx).symm
      obtain ⟨t0ex, hlook1⟩ := lookupTable_create s fd.source.articles_table
      have hUtbl : sU.tables = (createArticlesTableIfNotExists s fd.source.articles_table).tables :=
        upsertSource_tables _ _ _ hup
      have hlookU : lookupTable sU fd.source.articles_table = some t0ex := by
        unfold lookupTable at hlook1 ⊢
        rw [hUtbl]
        exact hlook1
      rw [show (lookupTable sU fd.source.articles_table).getD ⟨[], 1⟩ = t0ex by
        rw [hlookU]; rfl] at hart
      obtain ⟨ks, hks, happ⟩ := (upsertArticles_ok_iff fd.articles t0ex tN).mp hart
      have hlook2 : lookupTable s2 fd.source.articles_table = some tN := by
        rw [hs2]
        have h1 : findTbl (setTbl sU.tables fd.source.articles_table tN)
            fd.source.articles_table = some tN := by
          rw [findTbl_setTbl]
          unfold lookupTable at hlookU
          rw [hlookU]
          rfl
        exact h1
      constructor
      · intro t t2 hlt hlt2
        have hcreate : createArticlesTableIfNotExists s fd.source.articles_table = s := by
          unfold createArticlesTableIfNotExists
          rw [hlt]
        rw [hcreate] at hlook1
        have ht0 : t0ex = t := Option.some.inj (hlook1.symm.trans hlt)
        have ht2 : t2 = tN := Option.some.inj (hlt2.symm.trans hlook2)
        subst ht0
        subst ht2
        intro r hr
        have := applySteps_frame ks t0ex r hr
        rw [happ] at this
        exact this
      · have hcreate2 : createArticlesTableIfNotExists s2 fd.source.articles_table = s2 := by
          unfold createArticlesTableIfNotExists
          rw [hlook2]
        have hsrc2eq : s2.sources = sU.sources := by
          rw [hs2]
          rfl
        have hup2 : upsertSource s2 fd.source = .ok s2 :=
          upsertSource_idem_general _ _ _ hup s2 hsrc2eq
        have hart2 : upsertArticles
            ((lookupTable s2 fd.source.articles_table).getD ⟨[], 1⟩) fd.articles = .ok tN := by
          rw [hlook2]
          apply (upsertArticles_ok_iff fd.articles tN tN).mpr
          refine ⟨ks, hks, ?_⟩
          rw [← happ]
          exact applySteps_idem ks t0ex
        have htx2 : storeFeedSourceTx s2 fd = .ok s2 := by
          unfold storeFeedSourceTx
          rw [hcreate2]
          simp only [hup2, hart2]
          rw [hs2, setTable_setTable]
        unfold storeFeedSource
        rw [htx2]

/-- A one-article feed batch used as the concrete C1 instance. -/
def fdC1 : FeedData where
  source := ⟨"https://feed.example/rss", "Chan", "articles_chan"⟩
  articles := [⟨some "https://e.com/1", "A", .valid "2024-01-01", none, none, none⟩]

/-- The store after ingesting `fdC1` once. -/
def dbAfterC1 : DbState := (storeFeedSource initialDb fdC1).1

/-- Witness for C1 at the store that already holds the batch: rows are
preserved and the re-run returns the identical store. -/
theorem storeFeedSource_frame_and_idempotent_witness :
    (∀ t t2, lookupTable dbAfterC1 fdC1.source.articles_table = some t →
      lookupTable dbAfterC1 fdC1.source.articles_table = some t2 →
      ∀ r ∈ t.rows, ∃ r2 ∈ t2.rows, keepsEnrichment r r2) ∧
    storeFeedSource dbAfterC1 fdC1 = (dbAfterC1, none) :=
  storeFeedSource_frame_and_idempotent dbAfterC1 dbAfterC1 fdC1 (by decide)

/-! ## Claim C9: `content` only ever moves from NULL to non-NULL -/

/-- Positional preservation of rows: no row disappears, ids stay put, and a
non-NULL `content` never becomes NULL. -/
def rowsPreserved (t t2 : ArticleTable) : Prop :=
  t.rows.length ≤ t2.rows.length ∧
  ∀ i (h1 : i < t.rows.length) (h2 : i < t2.rows.length),
    (t2.rows.get ⟨i, h2⟩).id = (t.rows.get ⟨i, h1⟩).id ∧
    ((t.rows.get ⟨i, h1⟩).content ≠ none → (t2.rows.get ⟨i, h2⟩).content ≠ none)

/-- `rowsPreserved` is reflexive. -/
theorem rowsPreserved_refl (t : ArticleTable) : rowsPreserved t t :=
  ⟨le_refl _, fun _ _ _ => ⟨rfl, fun hc => hc⟩⟩

/-- `rowsPreserved` composes. -/
theorem rowsPreserved_trans (t1 t2 t3 : ArticleTable)
    (h12 : rowsPreserved t1 t2) (h23 : rowsPreserved t2 t3) : rowsPreserved t1 t3 := by
  obtain ⟨hl12, hp12⟩ := h12
  obtain ⟨hl23, hp23⟩ := h23
  refine ⟨le_trans hl12 hl23, ?_⟩
  intro i h1 h3
  have h2 : i < t2.rows.length := lt_of_lt_of_le h1 hl12
  obtain ⟨hid12, hc12⟩ := hp12 i h1 h2
  obtain ⟨hid23, hc23⟩ := hp23 i h2 h3
  exact ⟨hid23.trans hid12, fun hc => hc23 (hc12 hc)⟩

/-- One upsert step preserves rows positionally. -/
theorem rowsPreserved_stepArticle (t : ArticleTable) (u ti d : String) :
    rowsPreserved t (stepArticle t u ti d) := by
  unfold stepArticle
  by_cases hh : hasUrl t.rows u = true
  · rw [if_pos hh]
    unfold setTitleDate
    refine ⟨by simp, ?_⟩
    intro i h1 h2
    dsimp only at h2 ⊢
    rw [List.get_map]
    constructor
    · split <;> rfl
    · intro hc
      split <;> simpa using hc
  · rw [if_neg hh]
    refine ⟨by dsimp only; simp, ?_⟩
    intro i h1 h2
    dsimp only at h2 ⊢
    rw [List.get_append i h1]
    exact ⟨rfl, fun hc => hc⟩

/-- The whole batch fold preserves rows positionally. -/
theorem rowsPreserved_applySteps (ks : List (String × String × String)) :
    ∀ t : ArticleTable, rowsPreserved t (applySteps t ks) := by
  induction ks with
  | nil => intro t; exact rowsPreserved_refl t
  | cons k ks ih =>
    intro t
    unfold applySteps
    rw [List.foldl_cons]
    exact rowsPreserved_trans _ _ _ (rowsPreserved_stepArticle t k.1 k.2.1 k.2.2) (ih _)

/-- A content write preserves rows positionally; the written content is
`some _`, never NULL. -/
theorem rowsPreserved_updateContent (t : ArticleTable) (id : Nat) (c : String) :
    rowsPreserved t (updateContent t id c) := by
  unfold updateContent
  refine ⟨by simp, ?_⟩
  intro i h1 h2
  dsimp only at h2 ⊢
  rw [List.get_map]
  constructor
  · split <;> rfl
  · intro hc
    split
    · simp
    · simpa using hc

/-- `processArticle` returns either the untouched table or a single content
write for the processed row. -/
theorem processArticle_cases (env : EnrichEnv) (t : ArticleTable) (row : RowArticle) :
    processArticle env t row = t ∨
    ∃ c, processArticle env t row = updateContent t row.id c := by
  cases hs : getScraperForUrl row.url with
  | none =>
    left
    unfold processArticle
    rw [hs]
  | some sc =>
    unfold processArticle processArticleInner
    simp only [hs]
    cases hr : runScraper env sc row with
    | error e =>
      simp only [hr]
      exact Or.inl (by trivial)
    | ok html =>
      simp only [hr]
      by_cases hv : html = "Video Content"
      · by_cases hu : env.updateFails row.id = true
        · simp [hv, hu]
        · simp [hv, hu]
      · by_cases he : html = ""
        · simp [hv, he]
        · by_cases hm : convertToMarkdown env.htmlReaderModel (env.inference html) html = ""
          · simp [hv, he, hm]
          · by_cases hu : env.updateFails row.id = true
            · simp [hv, he, hm, hu]
            · simp [hv, he, hm, hu]

/-- The coordinator's per-article step preserves rows positionally. -/
theorem rowsPreserved_processArticle (env : EnrichEnv) (t : ArticleTable) (row : RowArticle) :
    rowsPreserved t (processArticle env t row) := by
  rcases processArticle_cases env t row with hc | ⟨c, hc⟩
  · rw [hc]; exact rowsPreserved_refl t
  · rw [hc]; exact rowsPreserved_updateContent t row.id c

/-- A whole enrichment batch preserves rows positionally. -/
theorem rowsPreserved_batch (env : EnrichEnv) (batch : List RowArticle) :
    ∀ t : ArticleTable, rowsPreserved t (batch.foldl (processArticle env) t) := by
  induction batch with
  | nil => intro t; exact rowsPreserved_refl t
  | cons r rs ih =>
    intro t
    rw [List.foldl_cons]
    exact rowsPreserved_trans _ _ _ (rowsPreserved_processArticle env t r) (ih _)

/-- `processTable` preserves rows positionally. -/
theorem rowsPreserved_processTable (env : EnrichEnv) (t : ArticleTable) :
    rowsPreserved t (processTable env t) :=
  rowsPreserved_batch env (getUnprocessedArticles t) t

/-- State-level positional preservation of every named table. -/
def statePreserved (s s2 : DbState) : Prop :=
  ∀ name t, lookupTable s name = some t →
    ∃ t2, lookupTable s2 name = some t2 ∧ rowsPreserved t t2

/-- `statePreserved` is reflexive. -/
theorem statePreserved_refl (s : DbState) : statePreserved s s :=
  fun _ t h => ⟨t, h, rowsPreserved_refl t⟩

/-- `statePreserved` composes. -/
theorem statePreserved_trans (s1 s2 s3 : DbState)
    (h12 : statePreserved s1 s2) (h23 : statePreserved s2 s3) : statePreserved s1 s3 := by
  intro name t h
  obtain ⟨t2, hl2, hp2⟩ := h12 name t h
  obtain ⟨t3, hl3, hp3⟩ := h23 name t2 hl2
  exact ⟨t3, hl3, rowsPreserved_trans _ _ _ hp2 hp3⟩

/-- Enriching one table preserves every table positionally. -/
theorem statePreserved_enrichTable (env : EnrichEnv) (s : DbState) (name : String) :
    statePreserved s (enrichTable env s name) := by
  unfold enrichTable
  cases hl : lookupTable s name with
  | none => exact statePreserved_refl s
  | some t0 =>
    intro nm t hnm
    by_cases hn : nm = name
    · subst hn
      rw [hl] at hnm
      cases Option.some.inj hnm
      refine ⟨processTable env t0, ?_, rowsPreserved_processTable env t0⟩
      unfold lookupTable at hl ⊢
      rw [show (setTable s nm (processTable env t0)).tables =
        setTbl s.tables nm (processTable env t0) from rfl]
      rw [findTbl_setTbl, hl]
      rfl
    · refine ⟨t, ?_, rowsPreserved_refl t⟩
      unfold lookupTable at hnm ⊢
      rw [show (setTable s name (processTable env t0)).tables =
        setTbl s.tables name (processTable env t0) from rfl]
      rw [findTbl_setTbl_ne _ _ _ _ hn]
      exact hnm

/-- A full enrichment pass preserves every table positionally. -/
theorem statePreserved_processAllTables (env : EnrichEnv) (s : DbState) :
    statePreserved s (processAllTables env s) := by
  unfold processAllTables
  generalize ((s.sources.foldr insertChannelAsc []).map (fun r => r.articles_table)) = names
  induction names generalizing s with
  | nil => exact statePreserved_refl s
  | cons n ns ih =>
    rw [List.foldl_cons]
    exact statePreserved_trans _ _ _ (statePreserved_enrichTable env s n) (ih _)

/-- A feed batch — committed or rolled back — preserves every table
positionally. -/
theorem statePreserved_storeFeedSource (s : DbState) (fd : FeedData) :
    statePreserved s (storeFeedSource s fd).1 := by
  unfold storeFeedSource
  cases htx : storeFeedSourceTx s fd with
  | error e => exact statePreserved_refl s
  | ok s2 =>
    unfold storeFeedSourceTx at htx
    cases hup : upsertSource (createArticlesTableIfNotExists s fd.source.articles_table) fd.source with
    | error e =>
      simp only [hup] at htx
      exact Except.noConfusion htx
    | ok sU =>
      simp only [hup] at htx
      cases hart : upsertArticles
          ((lookupTable sU fd.source.articles_table).getD ⟨[], 1⟩) fd.articles with
      | error e =>
        simp only [hart] at htx
        exact Except.noConfusion htx
      | ok tN =>
        simp only [hart] at htx
        have hs2 : s2 = setTable sU fd.source.articles_table tN := (Except.ok.inj htx).symm
        have hUtbl : sU.tables = (createArticlesTableIfNotExists s fd.source.articles_table).tables :=
          upsertSource_tables _ _ _ hup
        intro nm t hnm
        by_cases hn : nm = fd.source.articles_table
        · rw [hn] at hnm ⊢
          have hcreate : createArticlesTableIfNotExists s fd.source.articles_table = s := by
            unfold createArticlesTableIfNotExists
            rw [hnm]
          have hlookU : lookupTable sU fd.source.articles_table = some t := by
            unfold lookupTable at hnm ⊢
            rw [hUtbl, hcreate]
            exact hnm
          rw [show (lookupTable sU fd.source.articles_table).getD ⟨[], 1⟩ = t by
            rw [hlookU]; rfl] at hart
          obtain ⟨ks, hks, happ⟩ := (upsertArticles_ok_iff fd.articles t tN).mp hart
          refine ⟨tN, ?_, ?_⟩
          · rw [hs2]
            unfold lookupTable at hlookU ⊢
            rw [show (setTable sU fd.source.articles_table tN).tables =
              setTbl sU.tables fd.source.articles_table tN from rfl]
            rw [findTbl_setTbl, hlookU]
            rfl
          · rw [← happ]
            exact rowsPreserved_applySteps ks t
        · refine ⟨t, ?_, rowsPreserved_refl t⟩
          have hcr : lookupTable (createArticlesTableIfNotExists s fd.source.articles_table) nm = some t :=
            lookupTable_create_preserves s _ nm t hnm
          have hlookU : lookupTable sU nm = some t := by
            unfold lookupTable at hcr ⊢
            rw [hUtbl]
            exact hcr
          rw [hs2]
          unfold lookupTable at hlookU ⊢
          rw [show (setTable sU fd.source.articles_table tN).tables =
            setTbl sU.tables fd.source.articles_table tN from rfl]
          rw [findTbl_setTbl_ne _ _ _ _ hn]
          exact hlookU

/-- Any run of pipeline operations preserves every table positionally. -/
theorem statePreserved_applyOps (ops : List PipeOp) :
    ∀ s : DbState, statePreserved s (applyOps s ops) := by
  induction ops with
  | nil => intro s; exact statePreserved_refl s
  | cons op ops ih =>
    intro s
    unfold applyOps
    rw [List.foldl_cons]
    refine statePreserved_trans _ _ _ ?_ (ih _)
    cases op with
    | ingest fd => exact statePreserved_storeFeedSource s fd
    | enrich env => exact statePreserved_processAllTables env s

/-- Members of a date-descending insertion come from the inserted row or the
original list. -/
theorem mem_insertDateDesc (r x : ArticleRow) (l : List ArticleRow)
    (h : x ∈ insertDateDesc r l) : x = r ∨ x ∈ l := by
  induction l with
  | nil =>
    unfold insertDateDesc at h
    exact Or.inl (by simpa using h)
  | cons y ys ih =>
    unfold insertDateDesc at h
    split at h
    · rcases List.mem_cons.mp h with hc | hc
      · exact Or.inl hc
      · exact Or.inr hc
    · rcases List.mem_cons.mp h with hc | hc
      · exact Or.inr (by simp [hc])
      · rcases ih hc with hc2 | hc2
        · exact Or.inl hc2
        · exact Or.inr (by simp [hc2])

/-- Members of the date-descending sort come from the original list. -/
theorem mem_sortDateDesc (x : ArticleRow) (l : List ArticleRow)
    (h : x ∈ l.foldr insertDateDesc []) : x ∈ l := by
  induction l with
  | nil => simp at h
  | cons y ys ih =>
    rw [List.foldr_cons] at h
    rcases mem_insertDateDesc y x _ h with hc | hc
    · simp [hc]
    · simp [ih hc]

/-- Every row the pending-batch query returns has NULL content. -/
theorem selectPendingRows_content (tb : ArticleTable) (r : ArticleRow)
    (h : r ∈ selectPendingRows tb) : r.content = none := by
  unfold selectPendingRows at h
  have h2 := List.take_subset 5 _ h
  have h3 := mem_sortDateDesc r _ h2
  have h4 := List.mem_filter.mp h3
  simpa using h4.2

/-- C9.  Across every operation of the pipeline — feed upsert and enrichment
passes — an article's `content` only ever transitions from NULL to non-NULL:
rows never vanish, ids stay in place, and a non-NULL `content` is never reset
to NULL (first conjunct); moreover the pending-batch query excludes every
article whose `content` is already non-NULL (second conjunct). -/
theorem content_null_to_nonnull (ops : List PipeOp) (s : DbState) (name : String)
    (t : ArticleTable) (h : lookupTable s name = some t) :
    (∃ t2, lookupTable (applyOps s ops) name = some t2 ∧ rowsPreserved t t2) ∧
    ∀ (tb : ArticleTable) (r : ArticleRow), r ∈ selectPendingRows tb → r.content = none :=
  ⟨statePreserved_applyOps ops s name t h,
   fun tb r hr => selectPendingRows_content tb r hr⟩

/-- The concrete articles table after ingesting `fdC1`. -/
def tblAfterC1 : ArticleTable := (lookupTable dbAfterC1 "articles_chan").getD ⟨[], 1⟩

/-- Witness for C9: one enrichment pass over the ingested store. -/
theorem content_null_to_nonnull_witness :
    (∃ t2, lookupTable (applyOps dbAfterC1 [PipeOp.enrich envAllFail]) "articles_chan" = some t2 ∧
      rowsPreserved tblAfterC1 t2) ∧
    ∀ (tb : ArticleTable) (r : ArticleRow), r ∈ selectPendingRows tb → r.content = none :=
  content_null_to_nonnull [PipeOp.enrich envAllFail] dbAfterC1 "articles_chan" tblAfterC1 (by decide)
